import Mathlib

/-!
# Verification of the UIAgent screen-detection and navigation core

Shallow embedding of the screen-signature detector (`navigation/detector.py`),
the BFS navigator (`navigation/navigator.py`), and the popup-watcher state
(`mcp_server.py`), with theorems settling the frozen claims about them.

Numeric values that are Python floats in the source (scores, costs,
reliabilities) are modelled as rationals (`Rat`); wall-clock timing fields are
outside the model.  Python code that can raise an exception is modelled in the
`Except String` monad: `_selector_matches` raises `IndexError` when it indexes
`selector[0]` on an empty selector string, and that exception propagates out of
`_score_signature` and is caught only at the top of `detect_screen`.
-/

namespace UIAgent

/-!
## String primitives

Python string operations are modelled over the character list (`String.data`)
with structurally recursive functions, so every definition kernel-reduces on
concrete inputs.  Python indexes strings by code point, which is exactly what
`List Char` is.  `lower()`/`isupper()` are modelled by the ASCII-range
`Char.toLower`/`Char.isUpper` (the claims never depend on non-ASCII casing).
-/

/-- Substring occurrence on character lists: some suffix of `xs` starts with
`pat`.  The empty pattern occurs in every string, as in Python. -/
def containsSubL (pat : List Char) : List Char → Bool
  | [] => pat.isEmpty
  | c :: rest => pat.isPrefixOf (c :: rest) || containsSubL pat rest

/-- Python `str.split(sep)` on character lists (`sep` non-empty), with a length fuel
to keep the recursion structural; `fuel = xs.length` always suffices because
each step consumes at least one character. -/
def splitOnAuxL (sep : List Char) : Nat → List Char → List (List Char)
  | _, [] => [[]]
  | 0, xs => [xs]
  | fuel + 1, c :: rest =>
    if sep.isPrefixOf (c :: rest) then
      [] :: splitOnAuxL sep fuel (List.drop (sep.length - 1) rest)
    else
      match splitOnAuxL sep fuel rest with
      | [] => [[c]]
      | part :: parts => (c :: part) :: parts

/-- Python `s.split(sep)` / `String.splitOn`: Python raises on an empty separator and
this code never splits on one; returning `[s]` there keeps the model total. -/
def strSplitOn (s pat : String) : List String :=
  if pat.data.isEmpty then [s]
  else (splitOnAuxL pat.data s.data.length s.data).map String.mk

/-- Python `pat in s` (substring test). -/
def strContains (s pat : String) : Bool :=
  containsSubL pat.data s.data

/-- Python `s.startswith(pat)`. -/
def strStartsWith (s pat : String) : Bool :=
  pat.data.isPrefixOf s.data

/-- Python `s.lower()` (ASCII range). -/
def strToLower (s : String) : String :=
  ⟨s.data.map Char.toLower⟩

/-- Python `s[n:]` — drop the first `n` code points. -/
def strDrop (s : String) (n : Nat) : String :=
  ⟨s.data.drop n⟩

/-- Python `s.strip()`: remove leading and trailing whitespace. -/
def strTrim (s : String) : String :=
  ⟨((s.data.dropWhile Char.isWhitespace).reverse.dropWhile
      Char.isWhitespace).reverse⟩

/-- Structure `ScreenSignature` of `signatures/base.py` (dataclass fields). -/
structure ScreenSignature where
  app_id : String
  screen_id : String
  required : List String := []
  forbidden : List String := []
  unique : List String := []
  optional : List String := []
  priority : Int := 50
  recovery_action : Option String := none
  description : String := ""
  is_safe_state : Bool := false
deriving DecidableEq, Repr

/-- The non-`OR` body of `ScreenDetector._selector_matches`
(`detector.py:344-390`), in source order: `contains:`, namespaced-id
(`":id/" in selector`), `id:` prefix, `content-desc:`, `text:`, capitalized
class-short, generic fallback.  Python evaluates `selector[0].isupper()` for
the class-short branch, which raises `IndexError` on the empty string; that is
the `.error` case here (every earlier branch tests a non-empty prefix or
substring, so only `""` reaches the indexing). -/
def selector_matches_base (selector : String) (elements : List String) :
    Except String Bool :=
  if strStartsWith selector "contains:" then
    let search_text := strToLower (strDrop selector 9)
    .ok (elements.any (fun elem => strContains (strToLower elem) search_text))
  else if strContains selector ":id/" then
    let id_part := (strSplitOn selector ":id/").getLastD ""
    .ok (elements.any (fun elem =>
      (strStartsWith elem "resource-id:" &&
        strContains elem (":id/" ++ id_part)) ||
      (strStartsWith elem "id:" && elem = "id:" ++ id_part)))
  else if strStartsWith selector "id:" then
    let id_part := strDrop selector 3
    .ok (elements.any (fun elem =>
      (strStartsWith elem "resource-id:" &&
        strContains elem (":id/" ++ id_part)) ||
      elem = selector))
  else if strStartsWith selector "content-desc:" then
    .ok (decide (selector ∈ elements))
  else if strStartsWith selector "text:" then
    .ok (decide (selector ∈ elements))
  else
    match selector.data with
    | [] => .error "IndexError: string index out of range"
    | c :: _ =>
      if c.isUpper && !(strContains selector ":") then
        .ok (decide (("class-short:" ++ selector) ∈ elements))
      else
        .ok (decide (("content-desc:" ++ selector) ∈ elements ||
                     ("text:" ++ selector) ∈ elements ||
                     ("id:" ++ selector) ∈ elements))

/-- The `any(...)` generator over the stripped `" OR "` parts in
`_selector_matches` (`detector.py:340-342`): short-circuits, including on an
exception raised by a later part.  The recursive call on a stripped part
cannot itself contain `" OR "`, so it goes straight to the base case. -/
def or_parts_match (elements : List String) :
    List String → Except String Bool
  | [] => .ok false
  | p :: rest =>
    match selector_matches_base (strTrim p) elements with
    | .error e => .error e
    | .ok true => .ok true
    | .ok false => or_parts_match elements rest

/-- Method `ScreenDetector._selector_matches` (`detector.py:327-390`). -/
def selector_matches (selector : String) (elements : List String) :
    Except String Bool :=
  if strContains selector " OR " then
    or_parts_match elements (strSplitOn selector " OR ")
  else
    selector_matches_base selector elements

/-- A `for sel in selectors: if matches: return True` loop, used for the two
forbidden-selector loops in `_score_signature` (`detector.py:284-286,291-293`). -/
def any_selector_matches (elements : List String) :
    List String → Except String Bool
  | [] => .ok false
  | s :: rest =>
    match selector_matches s elements with
    | .error e => .error e
    | .ok true => .ok true
    | .ok false => any_selector_matches elements rest

/-- The unique-selector fast path of `_score_signature` (`detector.py:281-288`):
first matching unique selector checks every forbidden selector; a forbidden
match is `(0, [])`, otherwise `(1, ["unique:<sel>"])`; `none` when no unique
selector matches. -/
def unique_loop (forbidden : List String) (elements : List String) :
    List String → Except String (Option (Rat × List String))
  | [] => .ok none
  | u :: rest =>
    match selector_matches u elements with
    | .error e => .error e
    | .ok true =>
      match any_selector_matches elements forbidden with
      | .error e => .error e
      | .ok true => .ok (some (0, []))
      | .ok false => .ok (some (1, ["unique:" ++ u]))
    | .ok false => unique_loop forbidden elements rest

/-- The required/optional counting loops of `_score_signature`
(`detector.py:296-300,313-317`): returns the number of matches and the
`"<tag><sel>"` labels in list order. -/
def count_matches (tag : String) (elements : List String) :
    List String → Except String (Nat × List String)
  | [] => .ok (0, [])
  | s :: rest =>
    match selector_matches s elements with
    | .error e => .error e
    | .ok b =>
      match count_matches tag elements rest with
      | .error e => .error e
      | .ok (n, labels) =>
        if b then .ok (n + 1, (tag ++ s) :: labels) else .ok (n, labels)

/-- Method `ScreenDetector._score_signature` (`detector.py:261-325`). -/
def score_signature (signature : ScreenSignature) (elements : List String) :
    Except String (Rat × List String) :=
  match unique_loop signature.forbidden elements signature.unique with
  | .error e => .error e
  | .ok (some result) => .ok result
  | .ok none =>
    match any_selector_matches elements signature.forbidden with
    | .error e => .error e
    | .ok true => .ok (0, [])
    | .ok false =>
      match count_matches "required:" elements signature.required with
      | .error e => .error e
      | .ok (required_matches, matched_req) =>
        if signature.required ≠ [] ∧ required_matches = 0 then
          .ok (0, [])
        else
          let base_score : Rat :=
            if signature.required ≠ [] then
              (required_matches : Rat) / (signature.required.length : Rat)
            else (1 : Rat) / 2
          match count_matches "optional:" elements signature.optional with
          | .error e => .error e
          | .ok (optional_matches, matched_opt) =>
            let optional_boost : Rat :=
              if signature.optional ≠ [] then
                (1 : Rat) / 10 *
                  ((optional_matches : Rat) / (signature.optional.length : Rat))
              else 0
            .ok (min 1 (base_score + optional_boost), matched_req ++ matched_opt)

/-! ## Scoring lemmas (C1-C3) -/

theorem any_selector_matches_ok_false {elements : List String} :
    ∀ {sels : List String}, any_selector_matches elements sels = .ok false →
      ∀ f ∈ sels, selector_matches f elements = .ok false := by
  intro sels
  induction sels with
  | nil => intro _ f hf; cases hf
  | cons s rest ih =>
    intro h f hf
    cases hm : selector_matches s elements with
    | error e => simp [any_selector_matches, hm] at h
    | ok b =>
      cases b
      · simp only [any_selector_matches, hm] at h
        rcases List.mem_cons.mp hf with rfl | hf'
        · exact hm
        · exact ih h f hf'
      · simp [any_selector_matches, hm] at h

theorem any_selector_matches_ok_true {elements : List String} :
    ∀ {sels : List String}, any_selector_matches elements sels = .ok true →
      ∃ f ∈ sels, selector_matches f elements = .ok true := by
  intro sels
  induction sels with
  | nil => intro h; simp [any_selector_matches] at h
  | cons s rest ih =>
    intro h
    cases hm : selector_matches s elements with
    | error e => simp [any_selector_matches, hm] at h
    | ok b =>
      cases b
      · simp only [any_selector_matches, hm] at h
        obtain ⟨f, hf, hmf⟩ := ih h
        exact ⟨f, List.mem_cons_of_mem _ hf, hmf⟩
      · exact ⟨s, List.mem_cons_self s rest, hm⟩

theorem unique_loop_ok_none {forbidden elements : List String} :
    ∀ {uniques : List String},
      unique_loop forbidden elements uniques = .ok none →
      ∀ u ∈ uniques, selector_matches u elements = .ok false := by
  intro uniques
  induction uniques with
  | nil => intro _ u hu; cases hu
  | cons s rest ih =>
    intro h u hu
    cases hm : selector_matches s elements with
    | error e => simp [unique_loop, hm] at h
    | ok b =>
      cases b
      · simp only [unique_loop, hm] at h
        rcases List.mem_cons.mp hu with rfl | hu'
        · exact hm
        · exact ih h u hu'
      · cases hf : any_selector_matches elements forbidden with
        | error e => simp [unique_loop, hm, hf] at h
        | ok b' => cases b' <;> simp [unique_loop, hm, hf] at h

theorem unique_loop_ok_some {forbidden elements : List String}
    {res : Rat × List String} :
    ∀ {uniques : List String},
      unique_loop forbidden elements uniques = .ok (some res) →
      (any_selector_matches elements forbidden = .ok true ∧ res = (0, [])) ∨
      (any_selector_matches elements forbidden = .ok false ∧
        ∃ u, res = (1, ["unique:" ++ u])) := by
  intro uniques
  induction uniques with
  | nil => intro h; simp [unique_loop] at h
  | cons s rest ih =>
    intro h
    cases hm : selector_matches s elements with
    | error e => simp [unique_loop, hm] at h
    | ok b =>
      cases b
      · simp only [unique_loop, hm] at h
        exact ih h
      · cases hf : any_selector_matches elements forbidden with
        | error e => simp [unique_loop, hm, hf] at h
        | ok b' =>
          cases b'
          · simp only [unique_loop, hm, hf, Except.ok.injEq,
              Option.some.injEq] at h
            exact .inr ⟨rfl, s, h.symm⟩
          · simp only [unique_loop, hm, hf, Except.ok.injEq,
              Option.some.injEq] at h
            exact .inl ⟨rfl, h.symm⟩

/-- C1 — For every signature and element set, if some forbidden selector
matches and scoring completes without an internal error, the score is 0,
regardless of unique/required/optional content.  (The success hypothesis is
needed: an empty selector evaluated before the forbidden check raises
`IndexError` in the source, see the counterexample.) -/
theorem forbidden_match_scores_zero (sig : ScreenSignature)
    (elements : List String) (r : Rat) (m : List String)
    (hok : score_signature sig elements = .ok (r, m))
    (hf : ∃ f ∈ sig.forbidden, selector_matches f elements = .ok true) :
    r = 0 := by
  obtain ⟨f, hfmem, hfmatch⟩ := hf
  cases hu : unique_loop sig.forbidden elements sig.unique with
  | error e => simp [score_signature, hu] at hok
  | ok ores =>
    cases ores with
    | some res =>
      rcases unique_loop_ok_some hu with ⟨_, hres⟩ | ⟨ha, _, hres⟩
      · simp only [score_signature, hu, Except.ok.injEq] at hok
        rw [hres] at hok
        simp only [Prod.mk.injEq] at hok
        exact hok.1.symm
      · have hff := any_selector_matches_ok_false ha f hfmem
        rw [hfmatch] at hff
        simp at hff
    | none =>
      cases ha : any_selector_matches elements sig.forbidden with
      | error e => simp [score_signature, hu, ha] at hok
      | ok b =>
        cases b
        · have hff := any_selector_matches_ok_false ha f hfmem
          rw [hfmatch] at hff
          simp at hff
        · simp only [score_signature, hu, ha, Except.ok.injEq,
            Prod.mk.injEq] at hok
          exact hok.1.symm

/-- C1 counterexample — the claim as stated ("scoring yields score 0") fails:
with `unique = [""]`, `forbidden = ["text:x"]` and element set `["text:x"]`,
the forbidden selector matches, but evaluating the empty unique selector first
raises `IndexError` (`detector.py:382`, `selector[0]` on `""`), so
`_score_signature` raises instead of returning 0. -/
theorem forbidden_match_scores_zero_cex :
    (∃ f ∈ (⟨"a", "s", [], ["text:x"], [""], [], 50, none, "", false⟩ :
          ScreenSignature).forbidden,
        selector_matches f ["text:x"] = .ok true) ∧
    ∀ m, score_signature
        ⟨"a", "s", [], ["text:x"], [""], [], 50, none, "", false⟩
        ["text:x"] ≠ .ok (0, m) := by
  refine ⟨⟨"text:x", by simp, rfl⟩, ?_⟩
  intro m h
  have herr : score_signature
      (⟨"a", "s", [], ["text:x"], [""], [], 50, none, "", false⟩ :
        ScreenSignature) ["text:x"] =
      .error "IndexError: string index out of range" := rfl
  rw [herr] at h
  cases h

/-- C1 witness — concrete application of `forbidden_match_scores_zero`. -/
theorem forbidden_match_scores_zero_witness :
    ∃ r m, score_signature
        ⟨"a", "s", ["text:r"], ["text:f"], [], [], 50, none, "", false⟩
        ["text:f", "text:r"] = .ok (r, m) ∧ r = 0 := by
  have h : score_signature
      (⟨"a", "s", ["text:r"], ["text:f"], [], [], 50, none, "", false⟩ :
        ScreenSignature) ["text:f", "text:r"] = .ok (0, []) := rfl
  exact ⟨0, [], h,
    forbidden_match_scores_zero _ _ _ _ h ⟨"text:f", by simp, rfl⟩⟩

/-- C2 — if scoring completes, some unique selector matches, and no forbidden
selector matches, the score is exactly 1. -/
theorem unique_match_scores_one (sig : ScreenSignature)
    (elements : List String) (r : Rat) (m : List String)
    (hok : score_signature sig elements = .ok (r, m))
    (hu : ∃ u ∈ sig.unique, selector_matches u elements = .ok true)
    (hf : ∀ f ∈ sig.forbidden, selector_matches f elements ≠ .ok true) :
    r = 1 := by
  obtain ⟨u, humem, humatch⟩ := hu
  cases hul : unique_loop sig.forbidden elements sig.unique with
  | error e => simp [score_signature, hul] at hok
  | ok ores =>
    cases ores with
    | none =>
      have hun := unique_loop_ok_none hul u humem
      rw [humatch] at hun
      simp at hun
    | some res =>
      rcases unique_loop_ok_some hul with ⟨ha, _⟩ | ⟨_, u', hres⟩
      · obtain ⟨f, hfmem, hfmatch⟩ := any_selector_matches_ok_true ha
        exact absurd hfmatch (hf f hfmem)
      · simp only [score_signature, hul, Except.ok.injEq] at hok
        rw [hres] at hok
        simp only [Prod.mk.injEq] at hok
        exact hok.1.symm

/-- C2 counterexample — with `unique = ["", "text:a"]`, no forbidden selectors
and element set `["text:a"]`, a unique selector matches and no forbidden
selector matches, yet scoring raises `IndexError` on the empty unique selector
evaluated first, so it does not yield 1.0. -/
theorem unique_match_scores_one_cex :
    ("text:a" ∈ (⟨"a", "s", [], [], ["", "text:a"], [], 50, none, "",
          false⟩ : ScreenSignature).unique ∧
      selector_matches "text:a" ["text:a"] = .ok true) ∧
    (⟨"a", "s", [], [], ["", "text:a"], [], 50, none, "", false⟩ :
        ScreenSignature).forbidden = [] ∧
    ∀ m, score_signature
        ⟨"a", "s", [], [], ["", "text:a"], [], 50, none, "", false⟩
        ["text:a"] ≠ .ok (1, m) := by
  refine ⟨⟨by simp, rfl⟩, rfl, ?_⟩
  intro m h
  have herr : score_signature
      (⟨"a", "s", [], [], ["", "text:a"], [], 50, none, "", false⟩ :
        ScreenSignature) ["text:a"] =
      .error "IndexError: string index out of range" := rfl
  rw [herr] at h
  cases h

/-- C2 witness — concrete application of `unique_match_scores_one`. -/
theorem unique_match_scores_one_witness :
    ∃ r m, score_signature
        ⟨"a", "s", [], [], ["text:u"], [], 50, none, "", false⟩
        ["text:u"] = .ok (r, m) ∧ r = 1 := by
  have h : score_signature
      (⟨"a", "s", [], [], ["text:u"], [], 50, none, "", false⟩ :
        ScreenSignature) ["text:u"] = .ok (1, ["unique:text:u"]) := rfl
  refine ⟨1, ["unique:text:u"], h,
    unique_match_scores_one _ _ _ _ h ⟨"text:u", by simp, rfl⟩ ?_⟩
  intro f hf
  simp at hf

/-- C3 — every score `_score_signature` actually returns lies in [0, 1]: the
optional boost (at most 0.1 on a base of 0, 0.5 or a required-match ratio)
never pushes the capped total above 1. -/
theorem score_in_unit_interval (sig : ScreenSignature)
    (elements : List String) (r : Rat) (m : List String)
    (hok : score_signature sig elements = .ok (r, m)) :
    0 ≤ r ∧ r ≤ 1 := by
  cases hul : unique_loop sig.forbidden elements sig.unique with
  | error e => simp [score_signature, hul] at hok
  | ok ores =>
    cases ores with
    | some res =>
      simp only [score_signature, hul, Except.ok.injEq] at hok
      rcases unique_loop_ok_some hul with ⟨_, hres⟩ | ⟨_, u, hres⟩ <;>
        · rw [hres] at hok
          simp only [Prod.mk.injEq] at hok
          rw [← hok.1]
          norm_num
    | none =>
      cases ha : any_selector_matches elements sig.forbidden with
      | error e => simp [score_signature, hul, ha] at hok
      | ok b =>
        cases b
        · cases hc : count_matches "required:" elements sig.required with
          | error e => simp [score_signature, hul, ha, hc] at hok
          | ok nr =>
            obtain ⟨required_matches, matched_req⟩ := nr
            by_cases hreq : sig.required ≠ [] ∧ required_matches = 0
            · simp only [score_signature, hul, ha, hc, if_pos hreq,
                Except.ok.injEq, Prod.mk.injEq] at hok
              rw [← hok.1]; norm_num
            · cases hco : count_matches "optional:" elements sig.optional with
              | error e => simp [score_signature, hul, ha, hc,
                  if_neg hreq, hco] at hok
              | ok no =>
                obtain ⟨optional_matches, matched_opt⟩ := no
                simp only [score_signature, hul, ha, hc, if_neg hreq, hco,
                  Except.ok.injEq, Prod.mk.injEq] at hok
                have hbase : (0 : Rat) ≤
                    (if sig.required ≠ [] then
                      (required_matches : Rat) / (sig.required.length : Rat)
                    else (1 : Rat) / 2) := by
                  split
                  · positivity
                  · norm_num
                have hboost : (0 : Rat) ≤
                    (if sig.optional ≠ [] then
                      (1 : Rat) / 10 *
                        ((optional_matches : Rat) /
                          (sig.optional.length : Rat))
                    else 0) := by
                  split
                  · positivity
                  · exact le_refl 0
                rw [← hok.1]
                refine ⟨le_min (by norm_num) (add_nonneg hbase hboost), ?_⟩
                exact min_le_left _ _
        · simp only [score_signature, hul, ha, Except.ok.injEq,
            Prod.mk.injEq] at hok
          rw [← hok.1]; norm_num

/-- C3 witness — concrete application of `score_in_unit_interval`. -/
theorem score_in_unit_interval_witness :
    ∃ r m, score_signature
        ⟨"a", "s", [], [], ["text:w"], [], 50, none, "", false⟩
        ["text:w"] = .ok (r, m) ∧ 0 ≤ r ∧ r ≤ 1 := by
  have h : score_signature
      (⟨"a", "s", [], [], ["text:w"], [], 50, none, "", false⟩ :
        ScreenSignature) ["text:w"] = .ok (1, ["unique:text:w"]) := rfl
  exact ⟨1, ["unique:text:w"], h, score_in_unit_interval _ _ _ _ h⟩

/-! ## Popup watcher state (`mcp_server.py`) -/

/-- Constant `MAX_POPUP_HISTORY` (`mcp_server.py:76`). -/
def MAX_POPUP_HISTORY : Nat := 100

/-- One history record appended by the popup watcher loop
(`mcp_server.py:1286-1297` and the dismissal sites): a dict with `name`,
`type`, `timestamp`, and message/text fields, modelled as strings. -/
structure PopupHistoryRecord where
  name : String
  type : String
  timestamp : String
  message : String
deriving DecidableEq, Repr

/-- Python `collections.deque(maxlen=n).append(x)`: append on the right and, if the
length would exceed `maxlen`, discard from the left. -/
def dequeAppend (maxlen : Nat) (q : List α) (x : α) : List α :=
  let q' := q ++ [x]
  if maxlen < q'.length then q'.drop (q'.length - maxlen) else q'

theorem dequeAppend_foldl {α : Type} (cap : Nat) :
    ∀ (xs : List α) (q : List α), q.length ≤ cap →
      xs.foldl (dequeAppend cap) q =
        (q ++ xs).drop (q.length + xs.length - cap) := by
  intro xs
  induction xs with
  | nil =>
    intro q hq
    simp [Nat.sub_eq_zero_of_le hq]
  | cons x rest ih =>
    intro q hq
    have hlenq : (q ++ [x]).length = q.length + 1 := by simp
    rcases Nat.lt_or_ge q.length cap with hlt | hge
    · have hstep : dequeAppend cap q x = q ++ [x] := by
        simp only [dequeAppend]
        rw [if_neg (by omega : ¬ cap < (q ++ [x]).length)]
      rw [List.foldl_cons, hstep, ih (q ++ [x]) (by omega)]
      have hL : (q ++ [x]) ++ rest = q ++ x :: rest := by simp
      have hidx : (q ++ [x]).length + rest.length - cap =
          q.length + (x :: rest).length - cap := by
        simp only [List.length_cons]
        omega
      rw [hL, hidx]
    · have hqcap : q.length = cap := le_antisymm hq hge
      have hstep : dequeAppend cap q x = (q ++ [x]).drop 1 := by
        simp only [dequeAppend]
        rw [if_pos (by omega : cap < (q ++ [x]).length)]
        have h2 : (q ++ [x]).length - cap = 1 := by omega
        rw [h2]
      have hlen : ((q ++ [x]).drop 1).length = cap := by
        simp only [List.length_drop]
        omega
      rw [List.foldl_cons, hstep, ih _ (le_of_eq hlen), hlen]
      have hidx : cap + rest.length - cap = rest.length := by omega
      have hdistr : (q ++ [x]).drop 1 ++ rest =
          ((q ++ [x]) ++ rest).drop 1 :=
        (List.drop_append_of_le_length (by omega : 1 ≤ (q ++ [x]).length)).symm
      have hL : (q ++ [x]) ++ rest = q ++ x :: rest := by simp
      have hidx2 : q.length + (x :: rest).length - cap = rest.length + 1 := by
        simp only [List.length_cons]
        omega
      rw [hidx, hdistr, List.drop_drop, hL, hidx2, Nat.add_comm]

/-- C9 — per-device popup/toast history is a `deque(maxlen=100)`: after any
sequence of appends starting from an empty buffer, the length never exceeds
`MAX_POPUP_HISTORY`, and once more than 100 records have been appended the
buffer holds exactly the 100 most recent records in insertion order. -/
theorem popup_history_ring_buffer (records : List PopupHistoryRecord) :
    (records.foldl (dequeAppend MAX_POPUP_HISTORY) []).length ≤
      MAX_POPUP_HISTORY ∧
    (MAX_POPUP_HISTORY < records.length →
      records.foldl (dequeAppend MAX_POPUP_HISTORY) [] =
        records.drop (records.length - MAX_POPUP_HISTORY)) := by
  have hfold := dequeAppend_foldl MAX_POPUP_HISTORY records []
    (by simp)
  simp only [List.nil_append, List.length_nil, Nat.zero_add] at hfold
  constructor
  · rw [hfold]
    simp only [List.length_drop]
    omega
  · intro _
    exact hfold

/-- C9 witness — 101 appends leave exactly the last 100 records. -/
theorem popup_history_ring_buffer_witness :
    ((List.replicate 101 (⟨"native_toast", "toast", "t", "m"⟩ :
        PopupHistoryRecord)).foldl (dequeAppend MAX_POPUP_HISTORY) []).length ≤
      MAX_POPUP_HISTORY ∧
    (List.replicate 101 (⟨"native_toast", "toast", "t", "m"⟩ :
        PopupHistoryRecord)).foldl (dequeAppend MAX_POPUP_HISTORY) [] =
      (List.replicate 101 (⟨"native_toast", "toast", "t", "m"⟩ :
        PopupHistoryRecord)).drop 1 := by
  refine ⟨(popup_history_ring_buffer _).1, ?_⟩
  have h := (popup_history_ring_buffer
    (List.replicate 101 (⟨"native_toast", "toast", "t", "m"⟩ :
      PopupHistoryRecord))).2 (by simp [MAX_POPUP_HISTORY])
  simpa [MAX_POPUP_HISTORY] using h

/-- A stored popup pattern (`mcp_server.py:1466-1470`). -/
structure PopupPattern where
  name : String
  detect_xpath : String
  dismiss_xpath : String
deriving DecidableEq, Repr

/-- A pattern dict as submitted to `popup_configure`: each key may be absent
(`"detect_xpath" not in p`) — absent keys are `none`. -/
structure PopupPatternInput where
  name : Option String := none
  detect_xpath : Option String := none
  dismiss_xpath : Option String := none
deriving DecidableEq, Repr

/-- The validation/append loop of `popup_configure` (`mcp_server.py:1463-1472`):
skips a submitted pattern only when the `detect_xpath` key is missing;
otherwise appends the normalized pattern (defaulted name and dismiss selector)
and counts it. Returns the final list and the `added` counter. -/
def add_patterns (stored : List PopupPattern) :
    List PopupPatternInput → List PopupPattern × Nat
  | [] => (stored, 0)
  | p :: rest =>
    match p.detect_xpath with
    | none => add_patterns stored rest
    | some dx =>
      let pattern : PopupPattern :=
        ⟨p.name.getD ("pattern_" ++ toString stored.length), dx,
          p.dismiss_xpath.getD ""⟩
      let result := add_patterns (stored ++ [pattern]) rest
      (result.1, result.2 + 1)

/-- Tool `popup_configure` (`mcp_server.py:1424-1484`) acting on one device's
pattern-list state: `existing = none` models `serial not in _popup_patterns`.
Returns the stored list and the `patterns_added` count. -/
def popup_configure (existing : Option (List PopupPattern))
    (patterns : List PopupPatternInput) (append : Bool) :
    List PopupPattern × Nat :=
  let base := if existing.isNone || !append then [] else existing.getD []
  add_patterns base patterns

theorem add_patterns_spec :
    ∀ (ps : List PopupPatternInput) (stored : List PopupPattern),
      (∀ pat ∈ (add_patterns stored ps).1,
        pat ∈ stored ∨ ∃ p ∈ ps, p.detect_xpath = some pat.detect_xpath) ∧
      (add_patterns stored ps).2 =
        (ps.filter (fun p => p.detect_xpath.isSome)).length := by
  intro ps
  induction ps with
  | nil => intro stored; simp [add_patterns]
  | cons p rest ih =>
    intro stored
    cases hdx : p.detect_xpath with
    | none =>
      simp only [add_patterns, hdx]
      refine ⟨fun pat hpat => ?_, ?_⟩
      · rcases (ih stored).1 pat hpat with h | ⟨p', hp', hdx'⟩
        · exact .inl h
        · exact .inr ⟨p', List.mem_cons_of_mem _ hp', hdx'⟩
      · rw [(ih stored).2]
        simp [List.filter_cons, hdx]
    | some dx =>
      simp only [add_patterns, hdx]
      refine ⟨fun pat hpat => ?_, ?_⟩
      · rcases (ih _).1 pat hpat with h | ⟨p', hp', hdx'⟩
        · rcases List.mem_append.mp h with h' | h'
          · exact .inl h'
          · refine .inr ⟨p, List.mem_cons_self p rest, ?_⟩
            rw [hdx]
            congr 1
            have : pat = ⟨p.name.getD ("pattern_" ++ toString stored.length),
                dx, p.dismiss_xpath.getD ""⟩ := by
              simpa using h'
            rw [this]
        · exact .inr ⟨p', List.mem_cons_of_mem _ hp', hdx'⟩
      · rw [(ih _).2]
        simp [List.filter_cons, hdx]

/-- C10 (amended) — `popup_configure` skips exactly the submitted patterns
whose `detect_xpath` key is missing: `patterns_added` counts the key-present
submissions, and every stored pattern either pre-existed (append mode) or has
its detect selector taken verbatim from a submission that carried the key.
An empty-string detect selector is accepted, see the counterexample. -/
theorem popup_configure_rejects_missing_detect
    (existing : Option (List PopupPattern))
    (patterns : List PopupPatternInput) (append : Bool) :
    (popup_configure existing patterns append).2 =
      (patterns.filter (fun p => p.detect_xpath.isSome)).length ∧
    ∀ pat ∈ (popup_configure existing patterns append).1,
      pat ∈ (if existing.isNone || !append then ([] : List PopupPattern)
             else existing.getD []) ∨
      ∃ p ∈ patterns, p.detect_xpath = some pat.detect_xpath := by
  refine ⟨(add_patterns_spec patterns _).2, ?_⟩
  exact (add_patterns_spec patterns _).1

/-- C10 counterexample — a submitted pattern with a present but **empty**
detect selector is appended, so "a pattern whose detect selector is missing
or empty is rejected" fails on the code: only the missing-key case is
rejected (`"detect_xpath" not in p`, `mcp_server.py:1465`). -/
theorem popup_configure_rejects_missing_detect_cex :
    (popup_configure none [⟨some "x", some "", none⟩] true).1 =
      [⟨"x", "", ""⟩] ∧
    (⟨"x", "", ""⟩ : PopupPattern) ∈
      (popup_configure none [⟨some "x", some "", none⟩] true).1 ∧
    (⟨"x", "", ""⟩ : PopupPattern).detect_xpath = "" := by
  refine ⟨rfl, ?_, rfl⟩
  rw [show (popup_configure none [⟨some "x", some "", none⟩] true).1 =
    [⟨"x", "", ""⟩] from rfl]
  exact List.mem_singleton.mpr rfl

/-- C10 witness — concrete application of
`popup_configure_rejects_missing_detect`: one key-present pattern is counted
and stored, and its detect selector comes from the submission. -/
theorem popup_configure_rejects_missing_detect_witness :
    (popup_configure none [⟨some "n", some "//x", some "//y"⟩] true).2 = 1 ∧
    ((⟨"n", "//x", "//y"⟩ : PopupPattern) ∈
        (if (none : Option (List PopupPattern)).isNone || !true then
          ([] : List PopupPattern) else (none : Option (List PopupPattern)).getD []) ∨
      ∃ p ∈ [(⟨some "n", some "//x", some "//y"⟩ : PopupPatternInput)],
        p.detect_xpath = some (⟨"n", "//x", "//y"⟩ : PopupPattern).detect_xpath) := by
  constructor
  · rw [(popup_configure_rejects_missing_detect none
      [⟨some "n", some "//x", some "//y"⟩] true).1]
    rfl
  · exact (popup_configure_rejects_missing_detect none
      [⟨some "n", some "//x", some "//y"⟩] true).2
      ⟨"n", "//x", "//y"⟩ (by rw [show (popup_configure none
        [⟨some "n", some "//x", some "//y"⟩] true).1 =
        [⟨"n", "//x", "//y"⟩] from rfl]; exact List.mem_singleton.mpr rfl)

/-! ## Navigation graph and BFS pathfinding (`navigation/graph.py`,
`navigation/navigator.py`) -/

/-- Enum `ActionType` (`graph.py:15-25`). -/
inductive ActionType where
  | press_back
  | click_element
  | click_tab
  | click_text
  | click_content_desc
  | swipe_down
  | swipe_up
  | wait
  | launch_app
deriving DecidableEq, Repr

/-- Dataclass `NavigationAction` (`graph.py:28-34`); `wait_after` is a float duration,
modelled as a rational. -/
structure NavigationAction where
  action_type : ActionType
  target : Option String := none
  wait_after : Rat := 1
  description : String := ""
deriving DecidableEq, Repr

/-- Dataclass `NavigationEdge` (`graph.py:37-44`). -/
structure NavigationEdge where
  to_screen : String
  actions : List NavigationAction
  cost : Rat := 1
  reliability : Rat := 95 / 100
  description : String := ""
deriving DecidableEq, Repr

/-- The navigation graph `Dict[str, List[NavigationEdge]]`, as a finite
association list keyed by screen id. -/
abbrev NavGraph := List (String × List NavigationEdge)

/-- Lookup `self._graph.get(current, [])` (`navigator.py:160`). -/
def edgesOf (g : NavGraph) (screen : String) : List NavigationEdge :=
  ((g.find? (fun p => p.1 == screen)).map Prod.snd).getD []

/-- Dataclass `NavigationStep` (`navigator.py:39-44`). -/
structure NavigationStep where
  from_screen : String
  to_screen : String
  edge : NavigationEdge
deriving DecidableEq, Repr

/-- Dataclass `NavigationPath` (`navigator.py:47-56`). -/
structure NavigationPath where
  steps : List NavigationStep
  total_cost : Rat
  estimated_reliability : Rat
deriving DecidableEq, Repr

/-- One entry of the BFS queue
`(current_screen, path_so_far, total_cost, total_reliability)`
(`navigator.py:153-154`). -/
structure QueueEntry where
  screen : String
  path : List NavigationStep
  cost : Rat
  reliability : Rat
deriving DecidableEq, Repr

/-- Total number of edges in the graph; `1 + totalEdges g` bounds the number
of BFS dequeues (every enqueue marks a previously unvisited edge target as
visited, so at most `totalEdges g` enqueues follow the initial one), so it is
a sufficient fuel for the loop. -/
def totalEdges (g : NavGraph) : Nat :=
  (g.map (fun p => p.2.length)).sum

/-- The inner `for edge in edges` loop of `find_path` (`navigator.py:161-182`):
skips visited targets, returns the finished `NavigationPath` (`Sum.inr`) as
soon as an edge reaches `to_screen`, and otherwise enqueues the extended
entry, marking the target visited.  `Sum.inl` returns the updated queue and
visited set when the edge list is exhausted. -/
def process_edges (to_screen : String) (current : QueueEntry) :
    List NavigationEdge → List QueueEntry → List String →
      (List QueueEntry × List String) ⊕ NavigationPath
  | [], queue, visited => .inl (queue, visited)
  | edge :: rest, queue, visited =>
    if edge.to_screen ∈ visited then
      process_edges to_screen current rest queue visited
    else
      let new_step : NavigationStep :=
        ⟨current.screen, edge.to_screen, edge⟩
      let new_path := current.path ++ [new_step]
      let new_cost := current.cost + edge.cost
      let new_reliability := current.reliability * edge.reliability
      if edge.to_screen = to_screen then
        .inr ⟨new_path, new_cost, new_reliability⟩
      else
        process_edges to_screen current rest
          (queue ++ [⟨edge.to_screen, new_path, new_cost, new_reliability⟩])
          (visited ++ [edge.to_screen])

/-- The `while queue` loop of `find_path` (`navigator.py:157-182`), with an
explicit fuel (`1 + totalEdges g` suffices, see `totalEdges`).  An exhausted
queue returns `none`. -/
def bfs_loop (g : NavGraph) (to_screen : String) :
    Nat → List QueueEntry → List String → Option NavigationPath
  | 0, _, _ => none
  | _ + 1, [], _ => none
  | fuel + 1, current :: rest, visited =>
    match process_edges to_screen current (edgesOf g current.screen)
        rest visited with
    | .inr path => some path
    | .inl (queue', visited') => bfs_loop g to_screen fuel queue' visited'

/-- Method `ScreenNavigator.find_path` (`navigator.py:135-184`). -/
def find_path (g : NavGraph) (from_screen to_screen : String) :
    Option NavigationPath :=
  if from_screen = to_screen then
    some ⟨[], 0, 1⟩
  else
    bfs_loop g to_screen (1 + totalEdges g)
      [⟨from_screen, [], 0, 1⟩] [from_screen]

/-- C6 — `find_path(A, A)` is the empty path with cost 0 and reliability 1,
for every graph and screen. -/
theorem find_path_self (g : NavGraph) (A : String) :
    find_path g A A = some ⟨[], 0, 1⟩ := by
  simp [find_path]

/-! ## BFS correctness -/

/-- A valid path in `g` from `a` to `b`: consecutive steps, each step's edge
drawn from the graph's adjacency list of its source screen, with the step's
`to_screen` as recorded on the edge. -/
def ValidPath (g : NavGraph) : String → String → List NavigationStep → Prop
  | a, b, [] => a = b
  | a, b, step :: rest =>
    step.from_screen = a ∧ step.edge ∈ edgesOf g a ∧
    step.to_screen = step.edge.to_screen ∧
    ValidPath g step.edge.to_screen b rest

theorem validPath_append_last (g : NavGraph) (st : NavigationStep) :
    ∀ (q : List NavigationStep) (a b : String),
      ValidPath g a b (q ++ [st]) ↔
        (ValidPath g a st.from_screen q ∧
          st.edge ∈ edgesOf g st.from_screen ∧
          st.to_screen = st.edge.to_screen ∧ st.edge.to_screen = b) := by
  intro q
  induction q with
  | nil =>
    intro a b
    simp only [List.nil_append, ValidPath]
    constructor
    · rintro ⟨h1, h2, h3, h4⟩
      exact ⟨h1.symm, h1 ▸ h2, h3, h4⟩
    · rintro ⟨h1, h2, h3, h4⟩
      exact ⟨h1.symm, h1.symm ▸ h2, h3, h4⟩
  | cons s q' ih =>
    intro a b
    constructor
    · rintro ⟨h1, h2, h3, h4⟩
      obtain ⟨hv, he, ht, hb⟩ := (ih _ _).mp h4
      exact ⟨⟨h1, h2, h3, hv⟩, he, ht, hb⟩
    · rintro ⟨⟨h1, h2, h3, hv⟩, he, ht, hb⟩
      exact ⟨h1, h2, h3, (ih _ _).mpr ⟨hv, he, ht, hb⟩⟩

/-- The BFS queue always consists of a block of level-`L` entries followed by
a block of level-`L+1` entries, and the head (when the queue is non-empty) is
at level `L`. -/
def TwoLevel (L : Nat) (queue : List QueueEntry) : Prop :=
  ∃ q1 q2, queue = q1 ++ q2 ∧ (∀ e ∈ q1, e.path.length = L) ∧
    (∀ e ∈ q2, e.path.length = L + 1) ∧ (q1 = [] → q2 = [])

theorem twoLevel_length_ge {L : Nat} {queue : List QueueEntry}
    (h : TwoLevel L queue) : ∀ e ∈ queue, L ≤ e.path.length := by
  obtain ⟨q1, q2, rfl, h1, h2, _⟩ := h
  intro e he
  rcases List.mem_append.mp he with he | he
  · exact le_of_eq (h1 e he).symm
  · rw [h2 e he]; omega

/-- Loop invariant of the BFS in `find_path`, for source `s`, target `t`, and
current level `L`. -/
structure BfsInv (g : NavGraph) (s t : String) (L : Nat)
    (queue : List QueueEntry) (visited : List String) : Prop where
  hvalid : ∀ e ∈ queue, ValidPath g s e.screen e.path
  hmem : ∀ e ∈ queue, e.screen ∈ visited
  hsrc : s ∈ visited
  htgt : t ∉ visited
  hnodup : (queue.map QueueEntry.screen).Nodup
  hlevels : TwoLevel L queue
  hentry : ∀ e ∈ queue, ∀ q, ValidPath g s e.screen q →
    e.path.length ≤ q.length
  hmin : ∀ w, w ∉ visited → ∀ q, ValidPath g s w q → L + 1 ≤ q.length
  hclosure : ∀ u ∈ visited, u ∉ queue.map QueueEntry.screen →
    ∀ ed ∈ edgesOf g u, ed.to_screen ∈ visited
  hcost : ∀ e ∈ queue,
    e.cost = (e.path.map (fun st => st.edge.cost)).sum ∧
    e.reliability = (e.path.map (fun st => st.edge.reliability)).prod

theorem process_edges_inr {t : String} {cur : QueueEntry} :
    ∀ {edges : List NavigationEdge} {queue : List QueueEntry}
      {visited : List String} {p : NavigationPath},
      process_edges t cur edges queue visited = .inr p →
      ∃ edge ∈ edges, edge.to_screen = t ∧
        p = ⟨cur.path ++ [⟨cur.screen, edge.to_screen, edge⟩],
          cur.cost + edge.cost, cur.reliability * edge.reliability⟩ := by
  intro edges
  induction edges with
  | nil => intro queue visited p h; simp [process_edges] at h
  | cons edge rest ih =>
    intro queue visited p h
    by_cases hv : edge.to_screen ∈ visited
    · simp only [process_edges, if_pos hv] at h
      obtain ⟨e, he, h1, h2⟩ := ih h
      exact ⟨e, List.mem_cons_of_mem _ he, h1, h2⟩
    · by_cases ht : edge.to_screen = t
      · simp only [process_edges, if_neg hv, if_pos ht, Sum.inr.injEq] at h
        exact ⟨edge, List.mem_cons_self edge rest, ht, h.symm⟩
      · simp only [process_edges, if_neg hv, if_neg ht] at h
        obtain ⟨e, he, h1, h2⟩ := ih h
        exact ⟨e, List.mem_cons_of_mem _ he, h1, h2⟩

theorem process_edges_inl {t : String} {cur : QueueEntry} :
    ∀ {edges : List NavigationEdge} {queue queue' : List QueueEntry}
      {visited visited' : List String},
      process_edges t cur edges queue visited = .inl (queue', visited') →
      ∃ new : List QueueEntry,
        queue' = queue ++ new ∧
        visited' = visited ++ new.map QueueEntry.screen ∧
        (∀ e ∈ new, e.screen ∉ visited ∧ e.screen ≠ t ∧
          ∃ edge ∈ edges, edge.to_screen = e.screen ∧
            e.path = cur.path ++ [⟨cur.screen, edge.to_screen, edge⟩] ∧
            e.cost = cur.cost + edge.cost ∧
            e.reliability = cur.reliability * edge.reliability) ∧
        (new.map QueueEntry.screen).Nodup ∧
        (∀ edge ∈ edges, edge.to_screen ∈ visited') := by
  intro edges
  induction edges with
  | nil =>
    intro queue queue' visited visited' h
    simp only [process_edges, Sum.inl.injEq, Prod.mk.injEq] at h
    refine ⟨[], by simp [h.1.symm], by simp [h.2.symm], ?_, by simp, ?_⟩
    · intro e he; cases he
    · intro e he; cases he
  | cons edge rest ih =>
    intro queue queue' visited visited' h
    by_cases hv : edge.to_screen ∈ visited
    · simp only [process_edges, if_pos hv] at h
      obtain ⟨new, hq, hvis, hprops, hnd, hcl⟩ := ih h
      refine ⟨new, hq, hvis, ?_, hnd, ?_⟩
      · intro e he
        obtain ⟨h1, h2, edge', he', h3⟩ := hprops e he
        exact ⟨h1, h2, edge', List.mem_cons_of_mem _ he', h3⟩
      · intro e he
        rcases List.mem_cons.mp he with rfl | he'
        · rw [hvis]; exact List.mem_append_left _ hv
        · exact hcl e he'
    · by_cases ht : edge.to_screen = t
      · simp only [process_edges, if_neg hv, if_pos ht] at h
        cases h
      · simp only [process_edges, if_neg hv, if_neg ht] at h
        obtain ⟨new, hq, hvis, hprops, hnd, hcl⟩ := ih h
        refine ⟨⟨edge.to_screen, cur.path ++ [⟨cur.screen, edge.to_screen,
          edge⟩], cur.cost + edge.cost,
          cur.reliability * edge.reliability⟩ :: new, ?_, ?_, ?_, ?_, ?_⟩
        · rw [hq, List.append_assoc, List.singleton_append]
        · rw [hvis, List.map_cons, List.append_assoc, List.singleton_append]
        · intro e he
          rcases List.mem_cons.mp he with rfl | he'
          · exact ⟨hv, ht, edge, List.mem_cons_self edge rest, rfl, rfl,
              rfl, rfl⟩
          · obtain ⟨h1, h2, edge', he'', h3⟩ := hprops e he'
            refine ⟨fun hmem => h1 (List.mem_append_left _ hmem), h2,
              edge', List.mem_cons_of_mem _ he'', h3⟩
        · rw [List.map_cons]
          refine List.nodup_cons.mpr ⟨?_, hnd⟩
          intro hmem
          obtain ⟨e, he, hescr⟩ := List.mem_map.mp hmem
          exact (hprops e he).1 (hescr ▸ List.mem_append_right _
            (List.mem_singleton.mpr rfl))
        · intro e he
          rcases List.mem_cons.mp he with rfl | he'
          · rw [hvis]
            exact List.mem_append_left _
              (List.mem_append_right _ (List.mem_singleton.mpr rfl))
          · exact hcl e he'

/-- Main BFS loop invariant theorem: whenever `bfs_loop` returns a path from a
state satisfying `BfsInv`, the path is a valid path from `s` to `t`, its edge
count is minimal among all valid paths, and its cost/reliability are the
sum/product of the edge costs/reliabilities along it. -/
theorem bfs_loop_spec (g : NavGraph) (s t : String) :
    ∀ (fuel : Nat) (queue : List QueueEntry) (visited : List String)
      (L : Nat) (p : NavigationPath),
      BfsInv g s t L queue visited →
      bfs_loop g t fuel queue visited = some p →
      ValidPath g s t p.steps ∧
      (∀ q, ValidPath g s t q → p.steps.length ≤ q.length) ∧
      p.total_cost = (p.steps.map (fun st => st.edge.cost)).sum ∧
      p.estimated_reliability =
        (p.steps.map (fun st => st.edge.reliability)).prod := by
  intro fuel
  induction fuel with
  | zero => intro queue visited L p _ h; simp [bfs_loop] at h
  | succ fuel ih =>
    intro queue visited L p hinv h
    cases queue with
    | nil => simp [bfs_loop] at h
    | cons current rest =>
      obtain ⟨q1, q2, hsplit, hq1len, hq2len, hq1nil⟩ := hinv.hlevels
      cases q1 with
      | nil =>
        rw [hq1nil rfl] at hsplit
        simp at hsplit
      | cons c q1t =>
        rw [List.cons_append] at hsplit
        injection hsplit with hc hrest
        subst hc
        have hcur_mem : current ∈ current :: rest := List.mem_cons_self _ _
        have hcurlen : current.path.length = L :=
          hq1len current (List.mem_cons_self _ _)
        cases hpe : process_edges t current (edgesOf g current.screen)
            rest visited with
        | inr path =>
          simp only [bfs_loop, hpe, Option.some.injEq] at h
          subst h
          obtain ⟨edge, hedgemem, hten, hpath⟩ := process_edges_inr hpe
          subst hpath
          refine ⟨?_, ?_, ?_, ?_⟩
          · show ValidPath g s t (current.path ++
              [⟨current.screen, edge.to_screen, edge⟩])
            exact (validPath_append_last g _ _ _ _).mpr
              ⟨hinv.hvalid current hcur_mem, hedgemem, rfl, hten⟩
          · intro q hq
            show (current.path ++
              [(⟨current.screen, edge.to_screen, edge⟩ :
                NavigationStep)]).length ≤ q.length
            rw [List.length_append, List.length_singleton, hcurlen]
            exact hinv.hmin t hinv.htgt q hq
          · show current.cost + edge.cost = ((current.path ++
              [(⟨current.screen, edge.to_screen, edge⟩ :
                NavigationStep)]).map (fun st => st.edge.cost)).sum
            rw [List.map_append, List.sum_append,
              (hinv.hcost current hcur_mem).1]
            simp
          · show current.reliability * edge.reliability =
              ((current.path ++
                [(⟨current.screen, edge.to_screen, edge⟩ :
                  NavigationStep)]).map
                    (fun st => st.edge.reliability)).prod
            rw [List.map_append, List.prod_append,
              (hinv.hcost current hcur_mem).2]
            simp
        | inl qv =>
          obtain ⟨queue', visited'⟩ := qv
          simp only [bfs_loop, hpe] at h
          obtain ⟨new, hq', hv', hnewprops, hnewnodup, hcledges⟩ :=
            process_edges_inl hpe
          have hvisited_sub : ∀ x ∈ visited, x ∈ visited' := by
            intro x hx; rw [hv']; exact List.mem_append_left _ hx
          have hnew_len : ∀ e ∈ new, e.path.length = L + 1 := by
            intro e he
            obtain ⟨_, _, edge, _, _, hpath, _, _⟩ := hnewprops e he
            rw [hpath]
            rw [List.length_append, List.length_singleton, hcurlen]
          have hnew_mem : ∀ e ∈ new, e.screen ∈ visited' := by
            intro e he
            rw [hv']
            exact List.mem_append_right _ (List.mem_map.mpr ⟨e, he, rfl⟩)
          have hrest_sub : ∀ e ∈ rest, e ∈ current :: rest :=
            fun e he => List.mem_cons_of_mem _ he
          have hqmem : ∀ e ∈ queue', e ∈ rest ∨ e ∈ new := by
            intro e he
            rw [hq'] at he
            exact List.mem_append.mp he
          have hvalid' : ∀ e ∈ queue', ValidPath g s e.screen e.path := by
            intro e he
            rcases hqmem e he with he' | he'
            · exact hinv.hvalid e (hrest_sub e he')
            · obtain ⟨hnv, hnt, edge, hem, hto, hpath, _, _⟩ :=
                hnewprops e he'
              rw [hpath, ← hto]
              exact (validPath_append_last g _ _ _ _).mpr
                ⟨hinv.hvalid current hcur_mem, hem, rfl, rfl⟩
          have hmem' : ∀ e ∈ queue', e.screen ∈ visited' := by
            intro e he
            rcases hqmem e he with he' | he'
            · exact hvisited_sub _ (hinv.hmem e (hrest_sub e he'))
            · exact hnew_mem e he'
          have hsrc' : s ∈ visited' := hvisited_sub _ hinv.hsrc
          have htgt' : t ∉ visited' := by
            rw [hv']
            intro hmemt
            rcases List.mem_append.mp hmemt with hx | hx
            · exact hinv.htgt hx
            · obtain ⟨e, he, hescr⟩ := List.mem_map.mp hx
              exact (hnewprops e he).2.1 hescr
          have hnodup' : (queue'.map QueueEntry.screen).Nodup := by
            rw [hq', List.map_append]
            refine List.Nodup.append ?_ hnewnodup ?_
            · have hnd := hinv.hnodup
              rw [List.map_cons] at hnd
              exact hnd.of_cons
            · intro x hx1 hx2
              obtain ⟨e, he, rfl⟩ := List.mem_map.mp hx1
              obtain ⟨e', he', hee⟩ := List.mem_map.mp hx2
              exact (hnewprops e' he').1
                (by rw [hee]; exact hinv.hmem e (hrest_sub e he))
          have hentry' : ∀ e ∈ queue', ∀ q, ValidPath g s e.screen q →
              e.path.length ≤ q.length := by
            intro e he q hq
            rcases hqmem e he with he' | he'
            · exact hinv.hentry e (hrest_sub e he') q hq
            · rw [hnew_len e he']
              exact hinv.hmin e.screen (hnewprops e he').1 q hq
          have hclosure' : ∀ u ∈ visited',
              u ∉ queue'.map QueueEntry.screen →
              ∀ ed ∈ edgesOf g u, ed.to_screen ∈ visited' := by
            intro u hu hnq ed hed
            rw [hv'] at hu
            rcases List.mem_append.mp hu with hu' | hu'
            · by_cases hcu : u = current.screen
              · exact hcledges ed (hcu ▸ hed)
              · have hnotold : u ∉ (current :: rest).map
                    QueueEntry.screen := by
                  rw [List.map_cons]
                  intro hmemu
                  rcases List.mem_cons.mp hmemu with h' | h'
                  · exact hcu h'
                  · apply hnq
                    rw [hq', List.map_append]
                    exact List.mem_append_left _ h'
                exact hvisited_sub _ (hinv.hclosure u hu' hnotold ed hed)
            · exfalso
              apply hnq
              rw [hq', List.map_append]
              exact List.mem_append_right _ hu'
          have hcost' : ∀ e ∈ queue',
              e.cost = (e.path.map (fun st => st.edge.cost)).sum ∧
              e.reliability =
                (e.path.map (fun st => st.edge.reliability)).prod := by
            intro e he
            rcases hqmem e he with he' | he'
            · exact hinv.hcost e (hrest_sub e he')
            · obtain ⟨_, _, edge, _, hto, hpath, hcoste, hrele⟩ :=
                hnewprops e he'
              constructor
              · rw [hcoste, hpath, List.map_append, List.sum_append,
                  (hinv.hcost current hcur_mem).1]
                simp
              · rw [hrele, hpath, List.map_append, List.prod_append,
                  (hinv.hcost current hcur_mem).2]
                simp
          cases q1t with
          | nil =>
            have hrest2 : rest = q2 := by simpa using hrest
            have hall : ∀ e ∈ queue', e.path.length = L + 1 := by
              intro e he
              rcases hqmem e he with he' | he'
              · exact hq2len e (hrest2 ▸ he')
              · exact hnew_len e he'
            have hlevels' : TwoLevel (L + 1) queue' :=
              ⟨queue', [], (List.append_nil _).symm, hall,
                fun e he => absurd he (List.not_mem_nil e), fun _ => rfl⟩
            have hmin' : ∀ w, w ∉ visited' → ∀ q, ValidPath g s w q →
                (L + 1) + 1 ≤ q.length := by
              intro w hw q hq
              rcases List.eq_nil_or_concat q with rfl | ⟨q', st, hqc⟩
              · have hsw : s = w := hq
                exact absurd (hsw ▸ hsrc') hw
              · rw [List.concat_eq_append] at hqc
                subst hqc
                obtain ⟨hq'valid, hedge, hto, htob⟩ :=
                  (validPath_append_last g st q' s w).mp hq
                rw [List.length_append, List.length_singleton]
                have hsuff : L + 1 ≤ q'.length := by
                  by_cases hu : st.from_screen ∈ visited
                  · by_cases huq : st.from_screen ∈
                        queue'.map QueueEntry.screen
                    · obtain ⟨e, he, hescr⟩ := List.mem_map.mp huq
                      have hle := hentry' e he q'
                        (by rw [hescr]; exact hq'valid)
                      rw [hall e he] at hle
                      exact hle
                    · have hclw := hclosure' st.from_screen
                        (hvisited_sub _ hu) huq st.edge hedge
                      rw [htob] at hclw
                      exact absurd hclw hw
                  · exact hinv.hmin st.from_screen hu q' hq'valid
                omega
            exact ih queue' visited' (L + 1) p
              ⟨hvalid', hmem', hsrc', htgt', hnodup', hlevels',
                hentry', hmin', hclosure', hcost'⟩ h
          | cons c' q1t' =>
            have hlevels' : TwoLevel L queue' := by
              refine ⟨c' :: q1t', q2 ++ new, ?_, ?_, ?_, ?_⟩
              · rw [hq', hrest, List.append_assoc]
              · intro e he
                exact hq1len e (List.mem_cons_of_mem _ he)
              · intro e he
                rcases List.mem_append.mp he with he' | he'
                · exact hq2len e he'
                · exact hnew_len e he'
              · intro hcontra
                exact absurd hcontra (List.cons_ne_nil _ _)
            have hmin' : ∀ w, w ∉ visited' → ∀ q, ValidPath g s w q →
                L + 1 ≤ q.length := by
              intro w hw q hq
              have hwv : w ∉ visited := fun hx => hw (hvisited_sub _ hx)
              exact hinv.hmin w hwv q hq
            exact ih queue' visited' L p
              ⟨hvalid', hmem', hsrc', htgt', hnodup', hlevels',
                hentry', hmin', hclosure', hcost'⟩ h

/-- The BFS start state `queue = [(from, [], 0.0, 1.0)]`,
`visited = {from}` satisfies the loop invariant at level 0. -/
theorem find_path_initial_inv (g : NavGraph) (A B : String) (hne : A ≠ B) :
    BfsInv g A B 0 [⟨A, [], 0, 1⟩] [A] := by
  refine ⟨?_, ?_, ?_, ?_, ?_, ?_, ?_, ?_, ?_, ?_⟩
  · intro e he
    rw [List.mem_singleton.mp he]
    exact rfl
  · intro e he
    rw [List.mem_singleton.mp he]
    exact List.mem_singleton.mpr rfl
  · exact List.mem_singleton.mpr rfl
  · intro hc
    exact hne (List.mem_singleton.mp hc).symm
  · simp
  · refine ⟨[⟨A, [], 0, 1⟩], [], (List.append_nil _).symm, ?_, ?_, ?_⟩
    · intro e he
      rw [List.mem_singleton.mp he]
      rfl
    · intro e he
      exact absurd he (List.not_mem_nil e)
    · intro hc
      exact absurd hc (List.cons_ne_nil _ _)
  · intro e he q _
    rw [List.mem_singleton.mp he]
    exact Nat.zero_le _
  · intro w hw q hq
    cases q with
    | nil =>
      have : A = w := hq
      exact absurd (List.mem_singleton.mpr this.symm) hw
    | cons st q' => simp
  · intro u hu hnq
    exact absurd hu hnq
  · intro e he
    rw [List.mem_singleton.mp he]
    exact ⟨by simp, by simp⟩

/-- C4 — whenever `find_path` returns a path, that path is a valid path from
`A` to `B` in the graph and its number of edges is minimal among all valid
paths from `A` to `B`; the `cost`/`reliability` fields on edges play no role
in this selection (the statement quantifies over every graph, whatever those
fields are). -/
theorem find_path_shortest (g : NavGraph) (A B : String)
    (p : NavigationPath) (h : find_path g A B = some p) :
    ValidPath g A B p.steps ∧
    ∀ q, ValidPath g A B q → p.steps.length ≤ q.length := by
  by_cases hab : A = B
  · subst hab
    rw [find_path_self] at h
    obtain rfl := Option.some.injEq _ _ ▸ h.symm
    exact ⟨rfl, fun q _ => Nat.zero_le _⟩
  · have h' : bfs_loop g B (1 + totalEdges g) [⟨A, [], 0, 1⟩] [A] =
        some p := by
      rw [find_path, if_neg hab] at h
      exact h
    have hspec := bfs_loop_spec g A B (1 + totalEdges g) _ _ 0 p
      (find_path_initial_inv g A B hab) h'
    exact ⟨hspec.1, hspec.2.1⟩

/-- C4 witness — in a graph with a direct `a → c` edge and a detour through
`b`, the returned path has one step, and it is minimal. -/
theorem find_path_shortest_witness :
    ∃ p, find_path
        [("a", [⟨"b", [], 1, 95/100, ""⟩, ⟨"c", [], 1, 95/100, ""⟩]),
         ("b", [⟨"c", [], 1, 95/100, ""⟩])] "a" "c" = some p ∧
      p.steps.length = 1 ∧
      ValidPath
        [("a", [⟨"b", [], 1, 95/100, ""⟩, ⟨"c", [], 1, 95/100, ""⟩]),
         ("b", [⟨"c", [], 1, 95/100, ""⟩])] "a" "c" p.steps ∧
      ∀ q, ValidPath
        [("a", [⟨"b", [], 1, 95/100, ""⟩, ⟨"c", [], 1, 95/100, ""⟩]),
         ("b", [⟨"c", [], 1, 95/100, ""⟩])] "a" "c" q →
        p.steps.length ≤ q.length := by
  have h : find_path
      [("a", [⟨"b", [], 1, 95/100, ""⟩, ⟨"c", [], 1, 95/100, ""⟩]),
       ("b", [⟨"c", [], 1, 95/100, ""⟩])] "a" "c" =
      some ⟨[⟨"a", "c", ⟨"c", [], 1, 95/100, ""⟩⟩], 0 + 1,
        1 * (95/100)⟩ := rfl
  have hs := find_path_shortest _ _ _ _ h
  exact ⟨_, h, rfl, hs.1, hs.2⟩

/-- C5 — for every path `find_path` returns, `total_cost` is the sum of the
edge costs along it and `estimated_reliability` is the product of the edge
reliabilities along it. -/
theorem find_path_cost_reliability (g : NavGraph) (A B : String)
    (p : NavigationPath) (h : find_path g A B = some p) :
    p.total_cost = (p.steps.map (fun st => st.edge.cost)).sum ∧
    p.estimated_reliability =
      (p.steps.map (fun st => st.edge.reliability)).prod := by
  by_cases hab : A = B
  · subst hab
    rw [find_path_self] at h
    obtain rfl := Option.some.injEq _ _ ▸ h.symm
    exact ⟨by simp, by simp⟩
  · have h' : bfs_loop g B (1 + totalEdges g) [⟨A, [], 0, 1⟩] [A] =
        some p := by
      rw [find_path, if_neg hab] at h
      exact h
    have hspec := bfs_loop_spec g A B (1 + totalEdges g) _ _ 0 p
      (find_path_initial_inv g A B hab) h'
    exact hspec.2.2

/-- C5 witness — the spec's scenario: a single `home_feed → explore_grid`
edge with one tab-click action and `reliability = 0.98` yields a 1-step path
with `estimated_reliability = 0.98` (and `total_cost = 1`). -/
theorem find_path_cost_reliability_witness :
    ∃ p, find_path
        [("home_feed",
          [⟨"explore_grid",
            [⟨ActionType.click_tab, some "Search and explore", 1,
              "Click tab: Search and explore"⟩], 1, 98/100,
            "Go to Explore from Home"⟩])]
        "home_feed" "explore_grid" = some p ∧
      p.steps.length = 1 ∧
      p.total_cost = (p.steps.map (fun st => st.edge.cost)).sum ∧
      p.estimated_reliability =
        (p.steps.map (fun st => st.edge.reliability)).prod ∧
      p.estimated_reliability = 98/100 := by
  have h : find_path
      [("home_feed",
        [⟨"explore_grid",
          [⟨ActionType.click_tab, some "Search and explore", 1,
            "Click tab: Search and explore"⟩], 1, 98/100,
          "Go to Explore from Home"⟩])]
      "home_feed" "explore_grid" =
      some ⟨[⟨"home_feed", "explore_grid",
        ⟨"explore_grid",
          [⟨ActionType.click_tab, some "Search and explore", 1,
            "Click tab: Search and explore"⟩], 1, 98/100,
          "Go to Explore from Home"⟩⟩], 0 + 1, 1 * (98/100)⟩ := rfl
  have hs := find_path_cost_reliability _ _ _ _ h
  refine ⟨_, h, rfl, hs.1, hs.2, ?_⟩
  show (1 : Rat) * (98/100) = 98/100
  rw [one_mul]

/-! ## `navigate_to` (`navigator.py:236-364`)

Device interaction is modelled by an oracle environment: `detect n` is the
screen id reported by the `n`-th `detect_screen` call made during the
`navigate_to` invocation, and `exec n` the boolean outcome of the `n`-th
`_execute_step` call.  The state tracks the two call counters plus the
function-local `all_steps_taken`, `recovery_attempts` and `start_screen`
variables; `exec_idx` therefore counts how many navigation steps (and hence
actions) have been executed.  Wall-clock timing and sleeps are outside the
model. -/

/-- Enum `NavigationStatus` (`navigator.py:29-36`); `partialStatus` models the
source's `PARTIAL`. -/
inductive NavigationStatus where
  | success
  | failed
  | partialStatus
  | no_path
  | timeout
  | already_there
deriving DecidableEq, Repr

/-- Dataclass `NavigationResult` (`navigator.py:58-69`), without the wall-clock
`total_time_seconds` field. -/
structure NavigationResult where
  status : NavigationStatus
  start_screen : String
  target_screen : String
  final_screen : String
  path_taken : List NavigationStep := []
  steps_completed : Nat := 0
  error_message : Option String := none
  recovery_attempts : Nat := 0
deriving DecidableEq, Repr

/-- Oracle for device interactions during one `navigate_to` call. -/
structure NavEnv where
  detect : Nat → String
  exec : Nat → Bool

/-- The mutable locals of `navigate_to`, plus the two oracle counters. -/
structure NavState where
  detect_idx : Nat
  exec_idx : Nat
  all_steps : List NavigationStep
  recovery : Nat
  start_screen : String
deriving Repr

/-- The `for i, step in enumerate(path.steps, 1)` loop
(`navigator.py:310-350`): execute the step (one `exec` oracle call); on
failure count a recovery attempt and break (`none`); on success append to
`all_steps_taken`; with verification on, re-detect and treat a mismatch as
drift (recovery attempt, break); reaching `i == total` returns the success
result. -/
def exec_steps (env : NavEnv) (target : String) (verify : Bool)
    (total : Nat) : List NavigationStep → Nat → NavState →
      Option NavigationResult × NavState
  | [], _, st => (none, st)
  | step :: restSteps, i, st =>
    let ok := env.exec st.exec_idx
    let st1 : NavState := { st with exec_idx := st.exec_idx + 1 }
    if !ok then
      (none, { st1 with recovery := st1.recovery + 1 })
    else
      let st2 : NavState := { st1 with all_steps := st1.all_steps ++ [step] }
      if verify then
        let actual := env.detect st2.detect_idx
        let st3 : NavState := { st2 with detect_idx := st2.detect_idx + 1 }
        if actual ≠ step.to_screen then
          (none, { st3 with recovery := st3.recovery + 1 })
        else if i = total then
          (some ⟨.success, st3.start_screen, target, step.to_screen,
            st3.all_steps, st3.all_steps.length, none, st3.recovery⟩, st3)
        else
          exec_steps env target verify total restSteps (i + 1) st3
      else
        if i = total then
          (some ⟨.success, st2.start_screen, target, step.to_screen,
            st2.all_steps, st2.all_steps.length, none, st2.recovery⟩, st2)
        else
          exec_steps env target verify total restSteps (i + 1) st2

/-- The `for attempt in range(1, max_attempts + 1)` loop of `navigate_to`
(`navigator.py:259-364`), by recursion on the remaining attempts.  Exhausting
the attempts performs the final detection and returns `failed`. -/
def nav_attempts (g : NavGraph) (env : NavEnv) (target : String)
    (verify : Bool) (max_attempts : Nat) :
    Nat → Nat → NavState → NavigationResult × NavState
  | 0, _, st =>
    let final_screen := env.detect st.detect_idx
    let st1 : NavState := { st with detect_idx := st.detect_idx + 1 }
    (⟨.failed, st.start_screen, target, final_screen, st.all_steps,
      st.all_steps.length,
      some ("Failed after " ++ toString max_attempts ++ " attempts"),
      st.recovery⟩, st1)
  | rem + 1, attempt, st =>
    let current := env.detect st.detect_idx
    let st1 : NavState := { st with detect_idx := st.detect_idx + 1 }
    let st2 : NavState :=
      if st1.start_screen = "unknown"
      then { st1 with start_screen := current } else st1
    if current = "unknown" then
      nav_attempts g env target verify max_attempts rem (attempt + 1)
        { st2 with recovery := st2.recovery + 1 }
    else if current = target then
      (⟨if attempt = 1 then .already_there else .success, st2.start_screen,
        target, current, st2.all_steps, st2.all_steps.length, none,
        st2.recovery⟩, st2)
    else
      match find_path g current target with
      | none =>
        (⟨.no_path, st2.start_screen, target, current, st2.all_steps,
          st2.all_steps.length,
          some ("No path from " ++ current ++ " to " ++ target),
          st2.recovery⟩, st2)
      | some path =>
        match exec_steps env target verify path.steps.length
            path.steps 1 st2 with
        | (some result, st3) => (result, st3)
        | (none, st3) =>
          nav_attempts g env target verify max_attempts rem (attempt + 1) st3

/-- Method `ScreenNavigator.navigate_to` (`navigator.py:236-364`): fresh local
state, attempts numbered from 1. -/
def navigate_to (g : NavGraph) (env : NavEnv) (target : String)
    (max_attempts : Nat := 3) (verify_each_step : Bool := true) :
    NavigationResult × NavState :=
  nav_attempts g env target verify_each_step max_attempts max_attempts 1
    ⟨0, 0, [], 0, "unknown"⟩

theorem nav_attempts_leading_unknowns (g : NavGraph) (env : NavEnv)
    (target : String) (verify : Bool) (maxA : Nat) :
    ∀ (k : Nat) (rem attempt : Nat) (st : NavState), k < rem →
      (∀ j, j < k → env.detect (st.detect_idx + j) = "unknown") →
      env.detect (st.detect_idx + k) = target → target ≠ "unknown" →
      (nav_attempts g env target verify maxA rem attempt st).1.status =
        (if attempt + k = 1 then NavigationStatus.already_there
         else NavigationStatus.success) ∧
      (nav_attempts g env target verify maxA rem
          attempt st).1.steps_completed = st.all_steps.length ∧
      (nav_attempts g env target verify maxA rem
          attempt st).1.path_taken = st.all_steps ∧
      (nav_attempts g env target verify maxA rem attempt st).2.exec_idx =
        st.exec_idx := by
  intro k
  induction k with
  | zero =>
    intro rem attempt st hk hunk hdet ht
    cases rem with
    | zero => omega
    | succ rem' =>
      rw [Nat.add_zero] at hdet
      by_cases hss : st.start_screen = "unknown" <;>
        simp [nav_attempts, hdet, ht, hss]
  | succ k ih =>
    intro rem attempt st hk hunk hdet ht
    cases rem with
    | zero => omega
    | succ rem' =>
      have h0 : env.detect st.detect_idx = "unknown" := by
        have := hunk 0 (Nat.succ_pos k)
        rwa [Nat.add_zero] at this
      have hshift : ∀ j, j < k →
          env.detect (st.detect_idx + 1 + j) = "unknown" := by
        intro j hj
        have hj1 := hunk (j + 1) (by omega)
        have hidx : st.detect_idx + (j + 1) = st.detect_idx + 1 + j := by
          omega
        rwa [hidx] at hj1
      have hdet' : env.detect (st.detect_idx + 1 + k) = target := by
        have hidx : st.detect_idx + (k + 1) = st.detect_idx + 1 + k := by
          omega
        rwa [hidx] at hdet
      have hcond : attempt + 1 + k = attempt + (k + 1) := by omega
      by_cases hss : st.start_screen = "unknown"
      · have hstep : nav_attempts g env target verify maxA (rem' + 1)
            attempt st = nav_attempts g env target verify maxA rem'
              (attempt + 1)
              ⟨st.detect_idx + 1, st.exec_idx, st.all_steps,
                st.recovery + 1, "unknown"⟩ := by
          simp [nav_attempts, h0, hss]
        rw [hstep]
        have hres := ih rem' (attempt + 1)
          ⟨st.detect_idx + 1, st.exec_idx, st.all_steps,
            st.recovery + 1, "unknown"⟩
          (by omega) hshift hdet' ht
        rw [hcond] at hres
        exact hres
      · have hstep : nav_attempts g env target verify maxA (rem' + 1)
            attempt st = nav_attempts g env target verify maxA rem'
              (attempt + 1)
              ⟨st.detect_idx + 1, st.exec_idx, st.all_steps,
                st.recovery + 1, st.start_screen⟩ := by
          simp [nav_attempts, h0, hss]
        rw [hstep]
        have hres := ih rem' (attempt + 1)
          ⟨st.detect_idx + 1, st.exec_idx, st.all_steps,
            st.recovery + 1, st.start_screen⟩
          (by omega) hshift hdet' ht
        rw [hcond] at hres
        exact hres

/-- C7 — if the first `k` detections inside `navigate_to` report `"unknown"`
(consuming one attempt each) and detection number `k` reports the target
itself (an identified screen, so `target ≠ "unknown"`), then `navigate_to`
returns `already_there` when this happens on the very first attempt
(`k = 0`) and `success` on any later attempt (`k ≥ 1`); in both cases zero
navigation steps are executed (`exec_idx = 0`, so no actions run) and zero
steps are reported completed. -/
theorem navigate_to_already_there (g : NavGraph) (env : NavEnv)
    (target : String) (max_attempts : Nat) (verify : Bool) (k : Nat)
    (hk : k < max_attempts)
    (hunk : ∀ j, j < k → env.detect j = "unknown")
    (hdet : env.detect k = target) (ht : target ≠ "unknown") :
    (navigate_to g env target max_attempts verify).1.status =
      (if k = 0 then NavigationStatus.already_there
       else NavigationStatus.success) ∧
    (navigate_to g env target max_attempts verify).1.steps_completed = 0 ∧
    (navigate_to g env target max_attempts verify).1.path_taken = [] ∧
    (navigate_to g env target max_attempts verify).2.exec_idx = 0 := by
  have hres := nav_attempts_leading_unknowns g env target verify
    max_attempts k max_attempts 1 ⟨0, 0, [], 0, "unknown"⟩ hk
    (by intro j hj; rw [Nat.zero_add]; exact hunk j hj)
    (by rw [Nat.zero_add]; exact hdet) ht
  simp only [navigate_to]
  by_cases hk0 : k = 0
  · subst hk0
    simpa using hres
  · have h1 : ¬ (1 + k = 1) := by omega
    rw [if_neg h1] at hres
    rw [if_neg hk0]
    simpa using hres

/-- C7 witness — concrete application of `navigate_to_already_there`: with
the first detection already reporting the target, the result is
`already_there` with zero executed steps; with one leading `"unknown"`
detection the same situation on attempt 2 yields `success`. -/
theorem navigate_to_already_there_witness :
    (navigate_to [] ⟨fun _ => "home_feed", fun _ => true⟩ "home_feed"
      3 true).1.status = NavigationStatus.already_there ∧
    (navigate_to [] ⟨fun _ => "home_feed", fun _ => true⟩ "home_feed"
      3 true).1.steps_completed = 0 ∧
    (navigate_to [] ⟨fun _ => "home_feed", fun _ => true⟩ "home_feed"
      3 true).2.exec_idx = 0 ∧
    (navigate_to [] ⟨fun n => if n = 0 then "unknown" else "home_feed",
      fun _ => true⟩ "home_feed" 3 true).1.status =
      NavigationStatus.success := by
  have h1 := navigate_to_already_there []
    ⟨fun _ => "home_feed", fun _ => true⟩ "home_feed" 3 true 0
    (by omega) (fun j hj => absurd hj (Nat.not_lt_zero j))
    rfl (by decide)
  have h2 := navigate_to_already_there []
    ⟨fun n => if n = 0 then "unknown" else "home_feed", fun _ => true⟩
    "home_feed" 3 true 1 (by omega)
    (by
      intro j hj
      have hj0 : j = 0 := by omega
      subst hj0
      rfl)
    rfl (by decide)
  refine ⟨?_, h1.2.1, h1.2.2.2, ?_⟩
  · simpa using h1.1
  · simpa using h2.1

/-! ## `detect_screen` (`detector.py:65-175`)

The UI dump is an oracle: `dump = none` models a failed
`device.dump_hierarchy()`, `some elements` the element set extracted from a
successful dump.  Wall-clock timing fields are outside the model.  The
signature list stands for `get_signatures_for_app(app_id, include_system)`. -/

/-- Dataclass `ScreenDetectionResult` (`signatures/base.py`), without the timing
field. -/
structure ScreenDetectionResult where
  app_id : String
  screen_id : String
  confidence : Rat
  matched_elements : List String := []
  candidates : List (String × Rat) := []
  description : String := ""
  is_safe_state : Bool := false
  recovery_action : Option String := none
  error : Option String := none
deriving Repr

/-- The detector's counters (`detector.py:60-63`; the running time total is
outside the model). -/
structure DetectorState where
  detection_count : Nat
  unknown_count : Nat
deriving DecidableEq, Repr

/-- One entry of the `scores` / `matched_elements_map` dicts
(`detector.py:111-118`), keyed by `sig.screen_id`. -/
structure ScoreEntry where
  screen_id : String
  score : Rat
  signature : ScreenSignature
  matched : List String
deriving Repr

/-- Python dict assignment `scores[k] = v`: replaces in place when the key is
already present (keeping its insertion-order slot), else appends. -/
def scores_insert (e : ScoreEntry) : List ScoreEntry → List ScoreEntry
  | [] => [e]
  | e' :: rest =>
    if e'.screen_id = e.screen_id then e :: rest
    else e' :: scores_insert e rest

/-- The scoring loop of `detect_screen` (`detector.py:114-118`): score every
signature, keeping those with `score > 0`; a raised exception aborts the loop
(propagating to the `except` handler). -/
def score_all (elements : List String) :
    List ScreenSignature → List ScoreEntry → Except String (List ScoreEntry)
  | [], acc => .ok acc
  | sig :: rest, acc =>
    match score_signature sig elements with
    | .error e => .error e
    | .ok (score, matched) =>
      if 0 < score then
        score_all elements rest
          (scores_insert ⟨sig.screen_id, score, sig, matched⟩ acc)
      else
        score_all elements rest acc

/-- Method `ScreenDetector.detect_screen` (`detector.py:65-175`): dump failure and
empty signature list yield error results without touching the counters; an
exception during scoring is caught by the `except` handler (also leaving the
counters untouched, since they are incremented after the scoring loop); an
empty score dict is the no-match case, incrementing `_unknown_count`;
otherwise the winner is the best-scoring entry under a stable descending
sort. -/
def detect_screen (app_id : String) (signatures : List ScreenSignature)
    (dump : Option (List String)) (st : DetectorState) :
    ScreenDetectionResult × DetectorState :=
  match dump with
  | none =>
    ({ app_id := app_id, screen_id := "unknown", confidence := 0,
       error := some "Failed to dump UI hierarchy" }, st)
  | some elements =>
    if signatures = [] then
      ({ app_id := app_id, screen_id := "unknown", confidence := 0,
         error := some ("No signatures registered for app: " ++ app_id) },
        st)
    else
      match score_all elements signatures [] with
      | .error e =>
        ({ app_id := app_id, screen_id := "unknown", confidence := 0,
           error := some e }, st)
      | .ok scores =>
        let st' : DetectorState :=
          { st with detection_count := st.detection_count + 1 }
        match scores with
        | [] =>
          ({ app_id := app_id, screen_id := "unknown", confidence := 0 },
            { st' with unknown_count := st'.unknown_count + 1 })
        | s0 :: srest =>
          let sorted := (s0 :: srest).mergeSort
            (fun a b => decide (b.score ≤ a.score))
          let winner := sorted.headD s0
          ({ app_id := winner.signature.app_id,
             screen_id := winner.screen_id,
             confidence := winner.score,
             matched_elements := winner.matched,
             candidates := (sorted.take 5).map
               (fun x => (x.screen_id, x.score)),
             description := winner.signature.description,
             is_safe_state := winner.signature.is_safe_state,
             recovery_action := winner.signature.recovery_action }, st')

theorem scores_insert_ne_nil (e : ScoreEntry) :
    ∀ acc : List ScoreEntry, scores_insert e acc ≠ [] := by
  intro acc
  cases acc with
  | nil => simp [scores_insert]
  | cons e' rest =>
    simp only [scores_insert]
    split <;> simp

theorem score_all_ne_nil (elements : List String) :
    ∀ (sigs : List ScreenSignature) (acc res : List ScoreEntry),
      acc ≠ [] → score_all elements sigs acc = .ok res → res ≠ [] := by
  intro sigs
  induction sigs with
  | nil =>
    intro acc res hacc h
    simp only [score_all, Except.ok.injEq] at h
    exact h ▸ hacc
  | cons sig rest ih =>
    intro acc res hacc h
    cases hs : score_signature sig elements with
    | error e => simp [score_all, hs] at h
    | ok sm =>
      obtain ⟨score, matched⟩ := sm
      simp only [score_all, hs] at h
      by_cases hpos : 0 < score
      · rw [if_pos hpos] at h
        exact ih _ res (scores_insert_ne_nil _ _) h
      · rw [if_neg hpos] at h
        exact ih _ res hacc h

theorem score_all_of_all_zero (elements : List String) :
    ∀ (sigs : List ScreenSignature) (acc : List ScoreEntry),
      (∀ sig ∈ sigs, ∃ r m, score_signature sig elements = .ok (r, m) ∧
        ¬ 0 < r) →
      score_all elements sigs acc = .ok acc := by
  intro sigs
  induction sigs with
  | nil => intro acc _; rfl
  | cons sig rest ih =>
    intro acc hall
    obtain ⟨r, m, hok, hr⟩ := hall sig (List.mem_cons_self sig rest)
    simp only [score_all, hok, if_neg hr]
    exact ih acc (fun s hs => hall s (List.mem_cons_of_mem _ hs))

theorem score_all_all_zero_of_nil (elements : List String) :
    ∀ (sigs : List ScreenSignature) (acc : List ScoreEntry),
      score_all elements sigs acc = .ok [] →
      ∀ sig ∈ sigs, ∃ r m, score_signature sig elements = .ok (r, m) ∧
        ¬ 0 < r := by
  intro sigs
  induction sigs with
  | nil => intro acc _ sig hsig; cases hsig
  | cons sig rest ih =>
    intro acc h s hs
    cases hsc : score_signature sig elements with
    | error e => simp [score_all, hsc] at h
    | ok sm =>
      obtain ⟨score, matched⟩ := sm
      simp only [score_all, hsc] at h
      by_cases hpos : 0 < score
      · rw [if_pos hpos] at h
        exact absurd rfl
          (score_all_ne_nil elements rest _ [] (scores_insert_ne_nil _ _) h)
      · rw [if_neg hpos] at h
        rcases List.mem_cons.mp hs with rfl | hs'
        · exact ⟨score, matched, hsc, hpos⟩
        · exact ih acc h s hs'

/-- C8 — (i) when signatures are registered, the dump succeeds, and every
registered signature scores (successfully) not above 0 on the element set,
`detect_screen` returns `screen_id = "unknown"` with confidence 0 and
increments the unknown counter by exactly one; (ii) conversely, the unknown
counter changes only in that situation (dump failure, an empty signature
list, a scoring exception, and a positive-scoring winner all leave it
unchanged), and then only by exactly one. -/
theorem detect_screen_unknown :
    (∀ (app_id : String) (sigs : List ScreenSignature)
        (elements : List String) (st : DetectorState),
      sigs ≠ [] →
      (∀ sig ∈ sigs, ∃ r m, score_signature sig elements = .ok (r, m) ∧
        ¬ 0 < r) →
      (detect_screen app_id sigs (some elements) st).1.screen_id =
        "unknown" ∧
      (detect_screen app_id sigs (some elements) st).1.confidence = 0 ∧
      (detect_screen app_id sigs (some elements) st).2.unknown_count =
        st.unknown_count + 1) ∧
    (∀ (app_id : String) (sigs : List ScreenSignature)
        (dump : Option (List String)) (st : DetectorState),
      (detect_screen app_id sigs dump st).2.unknown_count ≠
        st.unknown_count →
      (detect_screen app_id sigs dump st).2.unknown_count =
        st.unknown_count + 1 ∧
      ∃ elements, dump = some elements ∧ sigs ≠ [] ∧
        (∀ sig ∈ sigs, ∃ r m, score_signature sig elements = .ok (r, m) ∧
          ¬ 0 < r) ∧
        (detect_screen app_id sigs dump st).1.screen_id = "unknown" ∧
        (detect_screen app_id sigs dump st).1.confidence = 0) := by
  constructor
  · intro app_id sigs elements st hne hall
    have hsa : score_all elements sigs [] = .ok [] :=
      score_all_of_all_zero elements sigs [] hall
    simp [detect_screen, if_neg hne, hsa]
  · intro app_id sigs dump st hne
    cases dump with
    | none => simp [detect_screen] at hne
    | some elements =>
      by_cases hsigs : sigs = []
      · simp [detect_screen, hsigs] at hne
      · cases hsa : score_all elements sigs [] with
        | error e => simp [detect_screen, if_neg hsigs, hsa] at hne
        | ok scores =>
          cases scores with
          | nil =>
            refine ⟨by simp [detect_screen, if_neg hsigs, hsa], elements,
              rfl, hsigs, score_all_all_zero_of_nil elements sigs [] hsa,
              by simp [detect_screen, if_neg hsigs, hsa],
              by simp [detect_screen, if_neg hsigs, hsa]⟩
          | cons s0 srest =>
            simp [detect_screen, if_neg hsigs, hsa] at hne

/-- C8 witness — one registered signature whose single required selector is
absent from the (empty) element set: detection is `"unknown"`, confidence 0,
and the unknown counter goes from 0 to 1. -/
theorem detect_screen_unknown_witness :
    (detect_screen "instagram"
      [⟨"instagram", "home_feed", ["text:z"], [], [], [], 50, none, "",
        false⟩] (some []) ⟨0, 0⟩).1.screen_id = "unknown" ∧
    (detect_screen "instagram"
      [⟨"instagram", "home_feed", ["text:z"], [], [], [], 50, none, "",
        false⟩] (some []) ⟨0, 0⟩).1.confidence = 0 ∧
    (detect_screen "instagram"
      [⟨"instagram", "home_feed", ["text:z"], [], [], [], 50, none, "",
        false⟩] (some []) ⟨0, 0⟩).2.unknown_count = 1 := by
  have h := detect_screen_unknown.1 "instagram"
    [⟨"instagram", "home_feed", ["text:z"], [], [], [], 50, none, "",
      false⟩] [] ⟨0, 0⟩ (by simp)
    (by
      intro sig hsig
      rw [List.mem_singleton.mp hsig]
      exact ⟨0, [], rfl, by norm_num⟩)
  exact h

end UIAgent
